import Mathlib

/-!
Shallow embedding of the eqWAlizer driver of the erlang-language-platform
repository (crates/eqwalizer/src/lib.rs) and of the unused-macro IDE
diagnostic (crates/ide/src/diagnostics/unused_macro.rs), together with
theorems settling the specification claims about them.

Modelling conventions:
- Rust `Vec<u8>` byte buffers are `List Nat`; `u32` lengths are `Nat` with the
  explicit bound `< 2 ^ 32` where the source performs a fallible `try_into`.
- `FxHashMap String (Vec EqwalizerDiagnostic)` is modelled extensionally as
  `String → Option (List EqwalizerDiagnostic)`, matching the hash map's
  key-value (order-free) equality.
- The IPC side effects performed by the protocol loops are recorded as an
  explicit event trace; the messages the child sends are a script consumed
  in order, and a blocking `receive` on an exhausted script is the model of
  an I/O failure (child death / EOF).
-/

/-- Wire diagnostic record (struct `EqwalizerDiagnostic` in lib.rs): a text
range plus message, uri, code, and two nullable strings. Offsets are `u32`
in the source; no arithmetic is performed on them, so they are `Nat` here. -/
structure EqwalizerDiagnostic where
  rangeStart : Nat
  rangeEnd : Nat
  message : String
  uri : String
  code : String
  expression : Option String
  explanation : Option String
deriving DecidableEq

/-- The per-run diagnostics map `FxHashMap<String, Vec<EqwalizerDiagnostic>>`,
modelled extensionally. -/
def DiagMap : Type := String → Option (List EqwalizerDiagnostic)

/-- The empty map, value of `Default::default()` for the map. -/
def emptyDiagMap : DiagMap := fun _ => none

/-- Model of `diags.extend(other_diags.into_iter().map(...))` in
`EqwalizerDiagnostics::combine`: every key of `other` is inserted into
`diags`, replacing the previous value on duplicate keys. -/
def extendMap (diags other : DiagMap) : DiagMap :=
  fun k =>
    match other k with
    | some v => some v
    | none => diags k

/-- Enum `EqwalizerDiagnostics` of lib.rs: per-module diagnostic map, or a
parse failure for a module, or an unrecoverable error. -/
inductive EqwalizerDiagnostics where
  | Diagnostics (diags : DiagMap)
  | NoAst (module : String)
  | Error (msg : String)

/-- The `Default` impl for `EqwalizerDiagnostics`: `Diagnostics` of the
empty map. -/
def EqwalizerDiagnostics.default : EqwalizerDiagnostics :=
  .Diagnostics emptyDiagMap

/-- `EqwalizerDiagnostics::combine` of lib.rs, translated match arm by match
arm: `NoAst` and `Error` on the left are returned unchanged; two
`Diagnostics` extend the left map with the right one; a `Diagnostics` on the
left combined with `Error` or `NoAst` on the right yields a clone of the
right operand. -/
def EqwalizerDiagnostics.combine :
    EqwalizerDiagnostics → EqwalizerDiagnostics → EqwalizerDiagnostics
  | .NoAst m, _ => .NoAst m
  | .Error e, _ => .Error e
  | .Diagnostics diags, .Diagnostics other_diags =>
      .Diagnostics (extendMap diags other_diags)
  | .Diagnostics _, .Error e => .Error e
  | .Diagnostics _, .NoAst m => .NoAst m

/-- Claim C4: `combine (Error e) b = Error e`, `combine (NoAst m) b = NoAst m`,
and when the left operand is `Diagnostics` and the right is `NoAst` or
`Error` the result is the right operand; so `combine` always yields the
left-most non-`Diagnostics` operand when one exists. -/
theorem combine_left_most_non_diagnostics (e m : String) (d : DiagMap)
    (b : EqwalizerDiagnostics) :
    (EqwalizerDiagnostics.Error e).combine b = .Error e ∧
    (EqwalizerDiagnostics.NoAst m).combine b = .NoAst m ∧
    (EqwalizerDiagnostics.Diagnostics d).combine (.NoAst m) = .NoAst m ∧
    (EqwalizerDiagnostics.Diagnostics d).combine (.Error e) = .Error e := by
  refine ⟨?_, ?_, rfl, rfl⟩ <;> cases b <;> rfl

/-- Claim C5: combining two `Diagnostics` yields `Diagnostics` of the union
of the maps — every key of either input is present, on duplicate keys the
right operand's list replaces the left one's (never appended), on keys
absent from the right the left value is kept unchanged; `combine` is
associative; and `Diagnostics` of the empty map (the `Default` value) is a
two-sided identity for `combine`. -/
theorem combine_diagnostics_laws (m1 m2 : DiagMap) :
    ((EqwalizerDiagnostics.Diagnostics m1).combine (.Diagnostics m2) =
      .Diagnostics (extendMap m1 m2)) ∧
    (∀ k, (extendMap m1 m2 k).isSome = ((m1 k).isSome || (m2 k).isSome)) ∧
    (∀ k v, m2 k = some v → extendMap m1 m2 k = some v) ∧
    (∀ k, m2 k = none → extendMap m1 m2 k = m1 k) ∧
    (∀ a b c : EqwalizerDiagnostics,
      (a.combine b).combine c = a.combine (b.combine c)) ∧
    (∀ b : EqwalizerDiagnostics,
      EqwalizerDiagnostics.default.combine b = b ∧
      b.combine EqwalizerDiagnostics.default = b) := by
  refine ⟨rfl, ?_, ?_, ?_, ?_, ?_⟩
  · intro k
    simp only [extendMap]
    cases m2 k <;> cases m1 k <;> rfl
  · intro k v h
    simp only [extendMap, h]
  · intro k h
    simp only [extendMap, h]
  · intro a b c
    cases a <;> cases b <;> cases c <;> try rfl
    rename_i d1 d2 d3
    show EqwalizerDiagnostics.Diagnostics (extendMap (extendMap d1 d2) d3) =
      .Diagnostics (extendMap d1 (extendMap d2 d3))
    have h : extendMap (extendMap d1 d2) d3 = extendMap d1 (extendMap d2 d3) := by
      funext k
      simp only [extendMap]
      cases d3 k <;> cases d2 k <;> rfl
    rw [h]
  · intro b
    cases b with
    | Diagnostics m =>
        constructor
        · show EqwalizerDiagnostics.Diagnostics (extendMap emptyDiagMap m) =
            .Diagnostics m
          have h : extendMap emptyDiagMap m = m := by
            funext k
            simp only [extendMap]
            cases m k <;> rfl
          rw [h]
        · rfl
    | NoAst m => exact ⟨rfl, rfl⟩
    | Error e => exact ⟨rfl, rfl⟩

/-- Witness for claim C5: the duplicate-key clause evaluated at concrete
maps. -/
theorem combine_diagnostics_laws_witness :
    ((fun _ => some ([] : List EqwalizerDiagnostic)) : DiagMap) "k" = some [] ∧
    extendMap emptyDiagMap (fun _ => some []) "k" = some [] :=
  ⟨rfl, (combine_diagnostics_laws emptyDiagMap (fun _ => some [])).2.2.1 "k" [] rfl⟩

/-- Modelled from the spec: the `ast` crate (not part of the two source
files) defines fixme entries on metadata forms; each entry carries a boolean
`is_ignore` flag that `compute_eqwalizer_stats` branches on. -/
structure Fixme where
  is_ignore : Bool
deriving DecidableEq

/-- Modelled from the spec: `ExternalForm` of the `ast` crate, quotiented to
the three cases `compute_eqwalizer_stats` distinguishes — a metadata form
carrying fixme entries, a nowarn-function form, and all other form kinds
(collapsed by the wildcard arm of the source's match). -/
inductive ExternalForm where
  | ElpMetadata (fixmes : List Fixme)
  | EqwalizerNowarnFunction (id : String)
  | OtherForm (kind : String)
deriving DecidableEq

/-- Struct `EqwalizerStats` of lib.rs. The counts are `u32` in the source;
they only ever grow by one per form or fixme entry, so they are `Nat` here. -/
structure EqwalizerStats where
  ignores : Nat
  fixmes : Nat
  nowarn : Nat
deriving DecidableEq

/-- One iteration of the `for form in ast.to_vec()` loop of
`compute_eqwalizer_stats`, on the accumulator `(fixmes, ignores, nowarn)`:
a metadata form runs the inner fixme loop, a nowarn-function form increments
`nowarn`, anything else is skipped. -/
def statsStep (acc : Nat × Nat × Nat) : ExternalForm → Nat × Nat × Nat
  | .ElpMetadata meta_fixmes =>
      meta_fixmes.foldl
        (fun a fx =>
          if fx.is_ignore then (a.1, a.2.1 + 1, a.2.2) else (a.1 + 1, a.2.1, a.2.2))
        acc
  | .EqwalizerNowarnFunction _ => (acc.1, acc.2.1, acc.2.2 + 1)
  | .OtherForm _ => acc

/-- `compute_eqwalizer_stats` of lib.rs: obtain the converted AST (an
unobtainable AST yields `none` via `.ok()?`), fold the counts over the
forms, and return `none` exactly when all three counts are zero. -/
def compute_eqwalizer_stats (ast : Except String (List ExternalForm)) :
    Option EqwalizerStats :=
  match ast with
  | .error _ => none
  | .ok forms =>
      let acc := forms.foldl statsStep (0, 0, 0)
      if acc.1 = 0 ∧ acc.2.1 = 0 ∧ acc.2.2 = 0 then none
      else some { ignores := acc.2.1, fixmes := acc.1, nowarn := acc.2.2 }

/-- Declarative count of non-ignore fixme entries contributed by one form. -/
def formFixmes : ExternalForm → Nat
  | .ElpMetadata fxs => fxs.countP (fun fx => !fx.is_ignore)
  | _ => 0

/-- Declarative count of ignore fixme entries contributed by one form. -/
def formIgnores : ExternalForm → Nat
  | .ElpMetadata fxs => fxs.countP (fun fx => fx.is_ignore)
  | _ => 0

/-- Declarative count of fixme entries with `is_ignore = false` in a form
list. -/
def countFixmes (forms : List ExternalForm) : Nat :=
  (forms.map formFixmes).sum

/-- Declarative count of fixme entries with `is_ignore = true` in a form
list. -/
def countIgnores (forms : List ExternalForm) : Nat :=
  (forms.map formIgnores).sum

/-- Declarative count of nowarn-function forms in a form list. -/
def countNowarn (forms : List ExternalForm) : Nat :=
  forms.countP (fun f => match f with | .EqwalizerNowarnFunction _ => true | _ => false)

theorem fixme_foldl_eq (fxs : List Fixme) : ∀ a : Nat × Nat × Nat,
    fxs.foldl
      (fun a fx =>
        if fx.is_ignore then (a.1, a.2.1 + 1, a.2.2) else (a.1 + 1, a.2.1, a.2.2))
      a =
    (a.1 + fxs.countP (fun fx => !fx.is_ignore),
     a.2.1 + fxs.countP (fun fx => fx.is_ignore), a.2.2) := by
  induction fxs with
  | nil => intro a; simp
  | cons fx rest ih =>
      intro a
      rw [List.foldl_cons, ih]
      cases hfx : fx.is_ignore <;>
        simp [hfx, List.countP_cons, Prod.ext_iff] <;> omega

/-- Claim C9: in `compute_eqwalizer_stats`, each fixme entry of a metadata
form with `is_ignore = true` increments the `ignores` count by one and each
entry with `is_ignore = false` increments the `fixmes` count by one; a
nowarn-function form increments `nowarn` by one; every other form kind
leaves the accumulator `(fixmes, ignores, nowarn)` unchanged. -/
theorem statsStep_increments (acc : Nat × Nat × Nat) (fxs : List Fixme)
    (idStr kindStr : String) :
    statsStep acc (.ElpMetadata fxs) =
      (acc.1 + fxs.countP (fun fx => !fx.is_ignore),
       acc.2.1 + fxs.countP (fun fx => fx.is_ignore), acc.2.2) ∧
    statsStep acc (.EqwalizerNowarnFunction idStr) =
      (acc.1, acc.2.1, acc.2.2 + 1) ∧
    statsStep acc (.OtherForm kindStr) = acc :=
  ⟨fixme_foldl_eq fxs acc, rfl, rfl⟩

theorem stats_foldl_eq (forms : List ExternalForm) : ∀ acc : Nat × Nat × Nat,
    forms.foldl statsStep acc =
      (acc.1 + countFixmes forms, acc.2.1 + countIgnores forms,
        acc.2.2 + countNowarn forms) := by
  induction forms with
  | nil => intro acc; simp [countFixmes, countIgnores, countNowarn]
  | cons f rest ih =>
      intro acc
      rw [List.foldl_cons, ih]
      cases f <;>
        simp [statsStep, countFixmes, countIgnores, countNowarn,
          formFixmes, formIgnores, List.countP_cons, fixme_foldl_eq,
          Prod.ext_iff] <;> omega

/-- Claim C8: for an obtainable converted AST, `compute_eqwalizer_stats`
returns `none` if and only if the fixme, ignore and nowarn counts
accumulated over the module's forms are all zero, and otherwise returns
exactly that triple of counts; an unobtainable AST yields `none` rather
than an error. -/
theorem compute_eqwalizer_stats_spec (e : String) (forms : List ExternalForm) :
    compute_eqwalizer_stats (.error e) = none ∧
    (compute_eqwalizer_stats (.ok forms) = none ↔
      (countFixmes forms = 0 ∧ countIgnores forms = 0 ∧ countNowarn forms = 0)) ∧
    (¬(countFixmes forms = 0 ∧ countIgnores forms = 0 ∧ countNowarn forms = 0) →
      compute_eqwalizer_stats (.ok forms) =
        some { ignores := countIgnores forms, fixmes := countFixmes forms,
               nowarn := countNowarn forms }) := by
  have hfold : forms.foldl statsStep (0, 0, 0) =
      (countFixmes forms, countIgnores forms, countNowarn forms) := by
    rw [stats_foldl_eq]
    simp
  refine ⟨rfl, ?_, ?_⟩
  · simp only [compute_eqwalizer_stats, hfold]
    split
    · rename_i hcond
      exact ⟨fun _ => hcond, fun _ => rfl⟩
    · rename_i hcond
      constructor
      · intro h
        exact absurd h (by simp)
      · intro h
        exact absurd h hcond
  · intro h
    simp only [compute_eqwalizer_stats, hfold]
    split
    · rename_i hcond
      exact absurd hcond h
    · rfl

/-- Witness for claim C8: a module with a single non-ignore fixme entry has
non-zero counts and yields the triple `(ignores, fixmes, nowarn) = (0, 1, 0)`. -/
theorem compute_eqwalizer_stats_witness :
    ¬(countFixmes [ExternalForm.ElpMetadata [⟨false⟩]] = 0 ∧
      countIgnores [ExternalForm.ElpMetadata [⟨false⟩]] = 0 ∧
      countNowarn [ExternalForm.ElpMetadata [⟨false⟩]] = 0) ∧
    compute_eqwalizer_stats (.ok [ExternalForm.ElpMetadata [⟨false⟩]]) =
      some { ignores := 0, fixmes := 1, nowarn := 0 } := by
  have h := (compute_eqwalizer_stats_spec "e" [ExternalForm.ElpMetadata [⟨false⟩]]).2.2
    (by decide)
  exact ⟨by decide, by rw [h]; decide⟩

/-- Modelled from the spec: the eight AST transformation stages the child can
request (enum `EqWAlizerASTFormat` of the `ipc` module, which is not among
the source files); each maps 1:1 to one AST-bytes query of the database. -/
inductive EqWAlizerASTFormat where
  | RawForms
  | ConvertedForms
  | RawStub
  | ConvertedStub
  | ExpandedStub
  | ContractiveStub
  | CovariantStub
  | TransitiveStub
deriving DecidableEq

/-- Modelled from the spec: `ast::Error` as the protocol loops match on it —
module not found, parse error, or any other error carrying its display
message. -/
inductive AstError where
  | ModuleNotFound (m : String)
  | ParseError
  | Other (msg : String)
deriving DecidableEq

/-- The AST-query interface the loops consume: one result per
`(module, format)` pair, standing for the eight `*_bytes` database queries
that the `format` match in the source dispatches to. -/
def AstDb : Type := String → EqWAlizerASTFormat → Except AstError (List Nat)

/-- Modelled from the spec: messages from the child (`MsgFromEqWAlizer` of
the `ipc` module), as listed in the external-interface section. -/
inductive MsgFromEqWAlizer where
  | GetAstBytes (module : String) (format : EqWAlizerASTFormat)
  | EqwalizingStart (module : String)
  | EqwalizingDone (module : String)
  | EnteringModule (module : String)
  | Dependencies (modules : List String)
  | Done (diagnostics : DiagMap)

/-- Modelled from the spec: messages to the child (`MsgToEqWAlizer` of the
`ipc` module). -/
inductive MsgToEqWAlizer where
  | GetAstBytesReply (ast_bytes_len : Nat)
  | CannotCompleteRequest
  | ELPEnteringModule
  | ELPExitingModule
deriving DecidableEq

/-- One observable side effect of a protocol loop — IPC traffic, database
and sink calls, incremental-engine calls — in program order. -/
inductive DriverEvent where
  | cancelCheck
  | recv (msg : MsgFromEqWAlizer)
  | sendMsg (msg : MsgToEqWAlizer)
  | recvNewline
  | sendBytes (bytes : List Nat)
  | astQuery (module : String) (format : EqWAlizerASTFormat)
  | eqwalizingStartEv (module : String)
  | eqwalizingDoneEv (module : String)
  | setModuleIpcHandle (module : String)
  | moduleDiagnosticsQuery (module : String)
  | untrackedRead

/-- The raw (unframed) bytes a list of events writes to the child: the
concatenation of all `sendBytes` payloads. -/
def rawBytesWritten (evs : List DriverEvent) : List Nat :=
  evs.foldr
    (fun e acc =>
      match e with
      | .sendBytes bs => bs ++ acc
      | _ => acc)
    []

/-- The protocol loop of `do_typecheck` in lib.rs (the batch driver), run
against the script of messages the child sends: every iteration checks
cancellation and then blocks on `receive`; `GetAstBytes` dispatches the AST
query for the requested format and runs the reply sub-protocol (success,
module-not-found, parse error, other error); `EqwalizingStart` and
`EqwalizingDone` call the observability sinks; `Done` returns the
diagnostics; any other message is logged and ignored.  An exhausted script
models `receive` failing (child EOF); a byte length not fitting `u32`
models the failing `try_into`. -/
def do_typecheck (db : AstDb) : List MsgFromEqWAlizer →
    List DriverEvent × Except String EqwalizerDiagnostics
  | [] => ([.cancelCheck], .error "eqWAlizer process died")
  | msg :: rest =>
    match msg with
    | .GetAstBytes module format =>
      match db module format with
      | .ok ast_bytes =>
        if ast_bytes.length < 2 ^ 32 then
          ([.cancelCheck, .recv msg, .astQuery module format,
            .sendMsg (.GetAstBytesReply ast_bytes.length), .recvNewline,
            .sendBytes ast_bytes] ++ (do_typecheck db rest).1,
           (do_typecheck db rest).2)
        else
          ([.cancelCheck, .recv msg, .astQuery module format],
           .error "out of range integral type conversion attempted")
      | .error (.ModuleNotFound _) =>
        ([.cancelCheck, .recv msg, .astQuery module format,
          .sendMsg (.GetAstBytesReply 0), .recvNewline] ++ (do_typecheck db rest).1,
         (do_typecheck db rest).2)
      | .error .ParseError =>
        ([.cancelCheck, .recv msg, .astQuery module format,
          .sendMsg .CannotCompleteRequest], .ok (.NoAst module))
      | .error (.Other e) =>
        ([.cancelCheck, .recv msg, .astQuery module format,
          .sendMsg .CannotCompleteRequest], .ok (.Error e))
    | .EqwalizingStart module =>
      ([.cancelCheck, .recv msg, .eqwalizingStartEv module] ++ (do_typecheck db rest).1,
       (do_typecheck db rest).2)
    | .EqwalizingDone module =>
      ([.cancelCheck, .recv msg, .eqwalizingDoneEv module] ++ (do_typecheck db rest).1,
       (do_typecheck db rest).2)
    | .Done diagnostics =>
      ([.cancelCheck, .recv msg], .ok (.Diagnostics diagnostics))
    | _ =>
      ([.cancelCheck, .recv msg] ++ (do_typecheck db rest).1, (do_typecheck db rest).2)

/-- The inner loop of `get_module_diagnostics` in lib.rs (the shell
per-module loop): identical request handling to `do_typecheck`, with the
extra `Dependencies` message that issues a transitive-stub query per listed
module (results ignored) and continues without replying. -/
def get_module_diagnostics_loop (db : AstDb) : List MsgFromEqWAlizer →
    List DriverEvent × Except String EqwalizerDiagnostics
  | [] => ([.cancelCheck], .error "eqWAlizer process died")
  | msg :: rest =>
    match msg with
    | .GetAstBytes module format =>
      match db module format with
      | .ok ast_bytes =>
        if ast_bytes.length < 2 ^ 32 then
          ([.cancelCheck, .recv msg, .astQuery module format,
            .sendMsg (.GetAstBytesReply ast_bytes.length), .recvNewline,
            .sendBytes ast_bytes] ++ (get_module_diagnostics_loop db rest).1,
           (get_module_diagnostics_loop db rest).2)
        else
          ([.cancelCheck, .recv msg, .astQuery module format],
           .error "out of range integral type conversion attempted")
      | .error (.ModuleNotFound _) =>
        ([.cancelCheck, .recv msg, .astQuery module format,
          .sendMsg (.GetAstBytesReply 0), .recvNewline] ++
            (get_module_diagnostics_loop db rest).1,
         (get_module_diagnostics_loop db rest).2)
      | .error .ParseError =>
        ([.cancelCheck, .recv msg, .astQuery module format,
          .sendMsg .CannotCompleteRequest], .ok (.NoAst module))
      | .error (.Other e) =>
        ([.cancelCheck, .recv msg, .astQuery module format,
          .sendMsg .CannotCompleteRequest], .ok (.Error e))
    | .EqwalizingStart module =>
      ([.cancelCheck, .recv msg, .eqwalizingStartEv module] ++
        (get_module_diagnostics_loop db rest).1,
       (get_module_diagnostics_loop db rest).2)
    | .EqwalizingDone module =>
      ([.cancelCheck, .recv msg, .eqwalizingDoneEv module] ++
        (get_module_diagnostics_loop db rest).1,
       (get_module_diagnostics_loop db rest).2)
    | .Done diagnostics =>
      ([.cancelCheck, .recv msg], .ok (.Diagnostics diagnostics))
    | .Dependencies modules =>
      ([.cancelCheck, .recv msg] ++
        modules.map (fun m => DriverEvent.astQuery m .TransitiveStub) ++
        (get_module_diagnostics_loop db rest).1,
       (get_module_diagnostics_loop db rest).2)
    | _ =>
      ([.cancelCheck, .recv msg] ++ (get_module_diagnostics_loop db rest).1,
       (get_module_diagnostics_loop db rest).2)

/-- `get_module_diagnostics` of lib.rs: look up the parked IPC handle for
the module (an absent handle is an error), send `ELPEnteringModule`, then
run the per-module loop. -/
def get_module_diagnostics (db : AstDb) (hasHandle : Bool) (module : String)
    (script : List MsgFromEqWAlizer) :
    List DriverEvent × Except String EqwalizerDiagnostics :=
  if hasHandle then
    (.sendMsg .ELPEnteringModule :: (get_module_diagnostics_loop db script).1,
     (get_module_diagnostics_loop db script).2)
  else
    ([], .error ("no eqWAlizer handle for module " ++ module))

/-- The accumulator loop of `shell_typecheck` in lib.rs: `EnteringModule`
registers the shared handle in the registry, runs the memoized
`module_diagnostics` query (modelled by the oracle `md`), sends
`ELPExitingModule`, and only then combines the query's outcome into the
accumulator; `Done` returns the accumulator; any other message is logged
and ignored. -/
def shell_typecheck_loop (md : String → EqwalizerDiagnostics)
    (acc : EqwalizerDiagnostics) : List MsgFromEqWAlizer →
    List DriverEvent × Except String EqwalizerDiagnostics
  | [] => ([.cancelCheck], .error "eqWAlizer process died")
  | msg :: rest =>
    match msg with
    | .EnteringModule module =>
      ([.cancelCheck, .recv msg, .setModuleIpcHandle module,
        .moduleDiagnosticsQuery module, .sendMsg .ELPExitingModule] ++
          (shell_typecheck_loop md (acc.combine (md module)) rest).1,
       (shell_typecheck_loop md (acc.combine (md module)) rest).2)
    | .Done _ => ([.cancelCheck, .recv msg], .ok acc)
    | _ =>
      ([.cancelCheck, .recv msg] ++ (shell_typecheck_loop md acc rest).1,
       (shell_typecheck_loop md acc rest).2)

/-- `shell_typecheck` of lib.rs: report the result as untracked, then run
the top-level loop starting from the default (empty `Diagnostics`)
accumulator. -/
def shell_typecheck (md : String → EqwalizerDiagnostics)
    (script : List MsgFromEqWAlizer) :
    List DriverEvent × Except String EqwalizerDiagnostics :=
  (DriverEvent.untrackedRead :: (shell_typecheck_loop md .default script).1,
   (shell_typecheck_loop md .default script).2)

/-- Does a loop iteration continue past this message?  False exactly for
`Done` and for a `GetAstBytes` whose query result terminates the loop
(parse error, other error, or an unrepresentable length).  The condition is
the same for the batch loop and the per-module loop. -/
def stepContinues (db : AstDb) : MsgFromEqWAlizer → Bool
  | .GetAstBytes module format =>
    match db module format with
    | .ok bs => decide (bs.length < 2 ^ 32)
    | .error (.ModuleNotFound _) => true
    | .error .ParseError => false
    | .error (.Other _) => false
  | .Done _ => false
  | _ => true

/-- The events of one non-terminating iteration of the batch loop. -/
def batchBlock (db : AstDb) (msg : MsgFromEqWAlizer) : List DriverEvent :=
  match msg with
  | .GetAstBytes module format =>
    [.cancelCheck, .recv msg, .astQuery module format] ++
    (match db module format with
     | .ok bs => [.sendMsg (.GetAstBytesReply bs.length), .recvNewline, .sendBytes bs]
     | .error (.ModuleNotFound _) => [.sendMsg (.GetAstBytesReply 0), .recvNewline]
     | .error _ => [.sendMsg .CannotCompleteRequest])
  | .EqwalizingStart module => [.cancelCheck, .recv msg, .eqwalizingStartEv module]
  | .EqwalizingDone module => [.cancelCheck, .recv msg, .eqwalizingDoneEv module]
  | _ => [.cancelCheck, .recv msg]

/-- The events of one non-terminating iteration of the per-module loop: as
in the batch loop, except that `Dependencies` issues one transitive-stub
query per listed module. -/
def innerBlock (db : AstDb) (msg : MsgFromEqWAlizer) : List DriverEvent :=
  match msg with
  | .Dependencies modules =>
    [.cancelCheck, .recv msg] ++
      modules.map (fun m => DriverEvent.astQuery m .TransitiveStub)
  | _ => batchBlock db msg

theorem do_typecheck_cons_continue (db : AstDb) (msg : MsgFromEqWAlizer)
    (rest : List MsgFromEqWAlizer) (h : stepContinues db msg = true) :
    do_typecheck db (msg :: rest) =
      (batchBlock db msg ++ (do_typecheck db rest).1, (do_typecheck db rest).2) := by
  cases msg with
  | GetAstBytes module format =>
    simp only [stepContinues] at h
    cases hdb : db module format with
    | ok bs =>
      rw [hdb] at h
      simp only [decide_eq_true_eq] at h
      have h32 : bs.length < 4294967296 := by omega
      simp [do_typecheck, batchBlock, hdb, h, h32]
    | error err =>
      cases err with
      | ModuleNotFound m => simp [do_typecheck, batchBlock, hdb]
      | ParseError => rw [hdb] at h; cases h
      | Other e => rw [hdb] at h; cases h
  | EqwalizingStart m => simp [do_typecheck, batchBlock]
  | EqwalizingDone m => simp [do_typecheck, batchBlock]
  | EnteringModule m => simp [do_typecheck, batchBlock]
  | Dependencies ms => simp [do_typecheck, batchBlock]
  | Done d => simp [stepContinues] at h

theorem inner_loop_cons_continue (db : AstDb) (msg : MsgFromEqWAlizer)
    (rest : List MsgFromEqWAlizer) (h : stepContinues db msg = true) :
    get_module_diagnostics_loop db (msg :: rest) =
      (innerBlock db msg ++ (get_module_diagnostics_loop db rest).1,
       (get_module_diagnostics_loop db rest).2) := by
  cases msg with
  | GetAstBytes module format =>
    simp only [stepContinues] at h
    cases hdb : db module format with
    | ok bs =>
      rw [hdb] at h
      simp only [decide_eq_true_eq] at h
      have h32 : bs.length < 4294967296 := by omega
      simp [get_module_diagnostics_loop, innerBlock, batchBlock, hdb, h, h32]
    | error err =>
      cases err with
      | ModuleNotFound m =>
          simp [get_module_diagnostics_loop, innerBlock, batchBlock, hdb]
      | ParseError => rw [hdb] at h; cases h
      | Other e => rw [hdb] at h; cases h
  | EqwalizingStart m => simp [get_module_diagnostics_loop, innerBlock, batchBlock]
  | EqwalizingDone m => simp [get_module_diagnostics_loop, innerBlock, batchBlock]
  | EnteringModule m => simp [get_module_diagnostics_loop, innerBlock, batchBlock]
  | Dependencies ms => simp [get_module_diagnostics_loop, innerBlock]
  | Done d => simp [stepContinues] at h

theorem do_typecheck_append_continue (db : AstDb) (pre rest : List MsgFromEqWAlizer)
    (h : ∀ msg ∈ pre, stepContinues db msg = true) :
    do_typecheck db (pre ++ rest) =
      ((pre.map (batchBlock db)).flatten ++ (do_typecheck db rest).1,
       (do_typecheck db rest).2) := by
  induction pre with
  | nil => simp
  | cons msg tail ih =>
    have hmsg : stepContinues db msg = true := h msg (List.mem_cons_self msg tail)
    have htail : ∀ m ∈ tail, stepContinues db m = true :=
      fun m hm => h m (List.mem_cons_of_mem _ hm)
    rw [List.cons_append, do_typecheck_cons_continue db msg (tail ++ rest) hmsg,
      ih htail]
    simp

theorem inner_loop_append_continue (db : AstDb) (pre rest : List MsgFromEqWAlizer)
    (h : ∀ msg ∈ pre, stepContinues db msg = true) :
    get_module_diagnostics_loop db (pre ++ rest) =
      ((pre.map (innerBlock db)).flatten ++ (get_module_diagnostics_loop db rest).1,
       (get_module_diagnostics_loop db rest).2) := by
  induction pre with
  | nil => simp
  | cons msg tail ih =>
    have hmsg : stepContinues db msg = true := h msg (List.mem_cons_self msg tail)
    have htail : ∀ m ∈ tail, stepContinues db m = true :=
      fun m hm => h m (List.mem_cons_of_mem _ hm)
    rw [List.cons_append, inner_loop_cons_continue db msg (tail ++ rest) hmsg,
      ih htail]
    simp

/-- Claim C1: in both the batch loop (`do_typecheck`) and the shell
per-module loop (`get_module_diagnostics`), whenever the AST query issued
for a `GetAstBytes { module, format }` request returns `ParseError`, the
driver sends `CannotCompleteRequest` to the child and the loop terminates
with outcome `NoAst { module }`, whatever non-terminating messages preceded
the request and whatever messages are still pending. -/
theorem parse_error_terminates_no_ast (db : AstDb)
    (pre rest : List MsgFromEqWAlizer) (module mq : String)
    (format : EqWAlizerASTFormat)
    (hpre : ∀ msg ∈ pre, stepContinues db msg = true)
    (hdb : db module format = .error .ParseError) :
    do_typecheck db (pre ++ .GetAstBytes module format :: rest) =
      ((pre.map (batchBlock db)).flatten ++
        [.cancelCheck, .recv (.GetAstBytes module format),
         .astQuery module format, .sendMsg .CannotCompleteRequest],
       .ok (.NoAst module)) ∧
    get_module_diagnostics db true mq (pre ++ .GetAstBytes module format :: rest) =
      (.sendMsg .ELPEnteringModule :: ((pre.map (innerBlock db)).flatten ++
        [.cancelCheck, .recv (.GetAstBytes module format),
         .astQuery module format, .sendMsg .CannotCompleteRequest]),
       .ok (.NoAst module)) := by
  have hhead : do_typecheck db (.GetAstBytes module format :: rest) =
      ([.cancelCheck, .recv (.GetAstBytes module format), .astQuery module format,
        .sendMsg .CannotCompleteRequest], .ok (.NoAst module)) := by
    simp [do_typecheck, hdb]
  have hhead2 : get_module_diagnostics_loop db (.GetAstBytes module format :: rest) =
      ([.cancelCheck, .recv (.GetAstBytes module format), .astQuery module format,
        .sendMsg .CannotCompleteRequest], .ok (.NoAst module)) := by
    simp [get_module_diagnostics_loop, hdb]
  constructor
  · rw [do_typecheck_append_continue db pre (.GetAstBytes module format :: rest) hpre,
      hhead]
  · simp only [get_module_diagnostics, if_pos]
    rw [inner_loop_append_continue db pre (.GetAstBytes module format :: rest) hpre,
      hhead2]

/-- Witness for claim C1: a single parse-failing request terminates the
batch loop with `NoAst`. -/
theorem parse_error_terminates_no_ast_witness :
    do_typecheck (fun _ _ => .error .ParseError)
        [.GetAstBytes "m" .RawForms] =
      ([.cancelCheck, .recv (.GetAstBytes "m" .RawForms), .astQuery "m" .RawForms,
        .sendMsg .CannotCompleteRequest], .ok (.NoAst "m")) := by
  have h := (parse_error_terminates_no_ast (fun _ _ => .error .ParseError) [] []
    "m" "m" .RawForms (by simp) rfl).1
  simpa using h

/-- Claim C2: in both loops, when the AST query for a `GetAstBytes` request
succeeds with a byte vector `bs` whose length fits in `u32`, the driver
sends `GetAstBytesReply` carrying exactly `bs.length`, consumes exactly one
newline acknowledgement, and then performs one unframed raw-byte write of
exactly the `bs.length` bytes of `bs`; a zero length means the raw-byte
write puts no bytes on the wire.  The loop then continues with the
remaining script. -/
theorem get_ast_bytes_success_reply (db : AstDb)
    (pre rest : List MsgFromEqWAlizer) (module mq : String)
    (format : EqWAlizerASTFormat) (bs : List Nat)
    (hpre : ∀ msg ∈ pre, stepContinues db msg = true)
    (hdb : db module format = .ok bs) (hlen : bs.length < 2 ^ 32) :
    do_typecheck db (pre ++ .GetAstBytes module format :: rest) =
      ((pre.map (batchBlock db)).flatten ++
        ([.cancelCheck, .recv (.GetAstBytes module format), .astQuery module format,
          .sendMsg (.GetAstBytesReply bs.length), .recvNewline, .sendBytes bs] ++
          (do_typecheck db rest).1),
       (do_typecheck db rest).2) ∧
    get_module_diagnostics db true mq (pre ++ .GetAstBytes module format :: rest) =
      (.sendMsg .ELPEnteringModule :: ((pre.map (innerBlock db)).flatten ++
        ([.cancelCheck, .recv (.GetAstBytes module format), .astQuery module format,
          .sendMsg (.GetAstBytesReply bs.length), .recvNewline, .sendBytes bs] ++
          (get_module_diagnostics_loop db rest).1)),
       (get_module_diagnostics_loop db rest).2) ∧
    rawBytesWritten [DriverEvent.sendBytes bs] = bs ∧
    (bs.length = 0 → rawBytesWritten [DriverEvent.sendBytes bs] = []) := by
  have h32 : bs.length < 4294967296 := by omega
  have hhead : do_typecheck db (.GetAstBytes module format :: rest) =
      ([.cancelCheck, .recv (.GetAstBytes module format), .astQuery module format,
        .sendMsg (.GetAstBytesReply bs.length), .recvNewline, .sendBytes bs] ++
        (do_typecheck db rest).1, (do_typecheck db rest).2) := by
    simp [do_typecheck, hdb, h32]
  have hhead2 : get_module_diagnostics_loop db (.GetAstBytes module format :: rest) =
      ([.cancelCheck, .recv (.GetAstBytes module format), .astQuery module format,
        .sendMsg (.GetAstBytesReply bs.length), .recvNewline, .sendBytes bs] ++
        (get_module_diagnostics_loop db rest).1,
       (get_module_diagnostics_loop db rest).2) := by
    simp [get_module_diagnostics_loop, hdb, h32]
  refine ⟨?_, ?_, ?_, ?_⟩
  · rw [do_typecheck_append_continue db pre (.GetAstBytes module format :: rest) hpre,
      hhead]
  · simp only [get_module_diagnostics, if_pos]
    rw [inner_loop_append_continue db pre (.GetAstBytes module format :: rest) hpre,
      hhead2]
  · simp [rawBytesWritten]
  · intro h0
    rw [List.length_eq_zero] at h0
    rw [h0]
    rfl

/-- Witness for claim C2: a successful three-byte reply writes exactly those
three raw bytes. -/
theorem get_ast_bytes_success_reply_witness :
    rawBytesWritten [DriverEvent.sendBytes [65, 66, 67]] = [65, 66, 67] :=
  (get_ast_bytes_success_reply (fun _ _ => .ok [65, 66, 67]) [] [] "m" "m"
    .ConvertedForms [65, 66, 67] (by simp) rfl (by decide)).2.2.1

/-- Claim C3: in both loops, when the AST query for a `GetAstBytes` request
returns `ModuleNotFound`, the driver sends `GetAstBytesReply` with length 0,
consumes one newline, writes no raw bytes, and the loop continues with the
remaining script without producing an error outcome. -/
theorem module_not_found_zero_reply (db : AstDb)
    (pre rest : List MsgFromEqWAlizer) (module mq s : String)
    (format : EqWAlizerASTFormat)
    (hpre : ∀ msg ∈ pre, stepContinues db msg = true)
    (hdb : db module format = .error (.ModuleNotFound s)) :
    do_typecheck db (pre ++ .GetAstBytes module format :: rest) =
      ((pre.map (batchBlock db)).flatten ++
        ([.cancelCheck, .recv (.GetAstBytes module format), .astQuery module format,
          .sendMsg (.GetAstBytesReply 0), .recvNewline] ++ (do_typecheck db rest).1),
       (do_typecheck db rest).2) ∧
    get_module_diagnostics db true mq (pre ++ .GetAstBytes module format :: rest) =
      (.sendMsg .ELPEnteringModule :: ((pre.map (innerBlock db)).flatten ++
        ([.cancelCheck, .recv (.GetAstBytes module format), .astQuery module format,
          .sendMsg (.GetAstBytesReply 0), .recvNewline] ++
          (get_module_diagnostics_loop db rest).1)),
       (get_module_diagnostics_loop db rest).2) ∧
    rawBytesWritten
      [DriverEvent.cancelCheck, .recv (.GetAstBytes module format),
       .astQuery module format, .sendMsg (.GetAstBytesReply 0), .recvNewline] = [] := by
  have hhead : do_typecheck db (.GetAstBytes module format :: rest) =
      ([.cancelCheck, .recv (.GetAstBytes module format), .astQuery module format,
        .sendMsg (.GetAstBytesReply 0), .recvNewline] ++ (do_typecheck db rest).1,
       (do_typecheck db rest).2) := by
    simp [do_typecheck, hdb]
  have hhead2 : get_module_diagnostics_loop db (.GetAstBytes module format :: rest) =
      ([.cancelCheck, .recv (.GetAstBytes module format), .astQuery module format,
        .sendMsg (.GetAstBytesReply 0), .recvNewline] ++
        (get_module_diagnostics_loop db rest).1,
       (get_module_diagnostics_loop db rest).2) := by
    simp [get_module_diagnostics_loop, hdb]
  refine ⟨?_, ?_, rfl⟩
  · rw [do_typecheck_append_continue db pre (.GetAstBytes module format :: rest) hpre,
      hhead]
  · simp only [get_module_diagnostics, if_pos]
    rw [inner_loop_append_continue db pre (.GetAstBytes module format :: rest) hpre,
      hhead2]

/-- Witness for claim C3: a module-not-found request followed by `Done`
yields the `Done` diagnostics, not an error. -/
theorem module_not_found_zero_reply_witness :
    (do_typecheck (fun _ _ => .error (.ModuleNotFound "missing"))
        [.GetAstBytes "missing" .RawForms, .Done emptyDiagMap]).2 =
      .ok (.Diagnostics emptyDiagMap) := by
  have h := (module_not_found_zero_reply (fun _ _ => .error (.ModuleNotFound "missing"))
    [] [.Done emptyDiagMap] "missing" "missing" "missing" .RawForms (by simp) rfl).1
  simp only [List.nil_append] at h
  rw [h]
  rfl

/-- The events of one non-`Done` iteration of the shell top-level loop. -/
def shellBlock (msg : MsgFromEqWAlizer) : List DriverEvent :=
  match msg with
  | .EnteringModule module =>
    [.cancelCheck, .recv msg, .setModuleIpcHandle module,
     .moduleDiagnosticsQuery module, .sendMsg .ELPExitingModule]
  | _ => [.cancelCheck, .recv msg]

/-- The modules of the `EnteringModule` messages of a script, in order. -/
def enteringModules (script : List MsgFromEqWAlizer) : List String :=
  script.filterMap
    (fun msg =>
      match msg with
      | .EnteringModule module => some module
      | _ => none)

/-- Is the message the child's final `Done`? -/
def isDoneMsg : MsgFromEqWAlizer → Bool
  | .Done _ => true
  | _ => false

theorem shell_loop_fold (md : String → EqwalizerDiagnostics)
    (pre : List MsgFromEqWAlizer) (dm : DiagMap) (post : List MsgFromEqWAlizer) :
    ∀ acc, (∀ msg ∈ pre, isDoneMsg msg = false) →
    shell_typecheck_loop md acc (pre ++ .Done dm :: post) =
      ((pre.map shellBlock).flatten ++ [.cancelCheck, .recv (.Done dm)],
       .ok ((enteringModules pre).foldl (fun a m => a.combine (md m)) acc)) := by
  induction pre with
  | nil =>
    intro acc hpre
    simp [shell_typecheck_loop, enteringModules]
  | cons msg tail ih =>
    intro acc hpre
    have hmsg := hpre msg (List.mem_cons_self msg tail)
    have htail : ∀ m ∈ tail, isDoneMsg m = false :=
      fun m hm => hpre m (List.mem_cons_of_mem _ hm)
    cases msg with
    | EnteringModule module =>
      rw [List.cons_append]
      simp only [shell_typecheck_loop]
      rw [ih (acc.combine (md module)) htail]
      simp [shellBlock, enteringModules]
    | Done d => simp [isDoneMsg] at hmsg
    | GetAstBytes m f =>
      rw [List.cons_append]
      simp only [shell_typecheck_loop]
      rw [ih acc htail]
      simp [shellBlock, enteringModules]
    | EqwalizingStart m =>
      rw [List.cons_append]
      simp only [shell_typecheck_loop]
      rw [ih acc htail]
      simp [shellBlock, enteringModules]
    | EqwalizingDone m =>
      rw [List.cons_append]
      simp only [shell_typecheck_loop]
      rw [ih acc htail]
      simp [shellBlock, enteringModules]
    | Dependencies ms =>
      rw [List.cons_append]
      simp only [shell_typecheck_loop]
      rw [ih acc htail]
      simp [shellBlock, enteringModules]

/-- Claim C6: in shell mode, each `EnteringModule { module }` message makes
the top-level loop register the shared IPC handle for that module, then run
the `module_diagnostics` query, then send exactly one `ELPExitingModule`,
then combine the per-module outcome into the accumulator; on `Done` the
loop returns the accumulator, which is the left fold of `combine` over the
per-module outcomes starting from `Diagnostics` of the empty map. -/
theorem shell_typecheck_fold (md : String → EqwalizerDiagnostics)
    (pre post : List MsgFromEqWAlizer) (dm : DiagMap)
    (hpre : ∀ msg ∈ pre, isDoneMsg msg = false) :
    shell_typecheck md (pre ++ .Done dm :: post) =
      (.untrackedRead ::
        ((pre.map shellBlock).flatten ++ [.cancelCheck, .recv (.Done dm)]),
       .ok ((enteringModules pre).foldl (fun a m => a.combine (md m))
         EqwalizerDiagnostics.default)) ∧
    (∀ module, shellBlock (.EnteringModule module) =
      [.cancelCheck, .recv (.EnteringModule module), .setModuleIpcHandle module,
       .moduleDiagnosticsQuery module, .sendMsg .ELPExitingModule]) := by
  constructor
  · simp only [shell_typecheck]
    rw [shell_loop_fold md pre dm post EqwalizerDiagnostics.default hpre]
  · intro m
    rfl

/-- Witness for claim C6: one visited module whose query errors makes the
run return that error (the absorbing-combine scenario). -/
theorem shell_typecheck_fold_witness :
    (shell_typecheck (fun _ => .Error "boom")
      [.EnteringModule "a", .Done emptyDiagMap]).2 = .ok (.Error "boom") := by
  have h := (shell_typecheck_fold (fun _ => .Error "boom") [.EnteringModule "a"]
    [] emptyDiagMap (by simp [isDoneMsg])).1
  rw [show [MsgFromEqWAlizer.EnteringModule "a", .Done emptyDiagMap] =
    [MsgFromEqWAlizer.EnteringModule "a"] ++ .Done emptyDiagMap :: [] from rfl, h]
  rfl

/-- Is the event a blocking message receive? -/
def isRecvEv : DriverEvent → Bool
  | .recv _ => true
  | _ => false

/-- Is the event a cancellation check (`unwind_if_cancelled`)? -/
def isCancelEv : DriverEvent → Bool
  | .cancelCheck => true
  | _ => false

/-- A trace does not start with a blocking receive. -/
def headNotRecv : List DriverEvent → Bool
  | [] => true
  | a :: _ => !isRecvEv a

/-- The event after `a` (if any) is a receive only when `a` is a
cancellation check. -/
def headOkAfter (a : DriverEvent) : List DriverEvent → Bool
  | [] => true
  | b :: _ => !isRecvEv b || isCancelEv a

/-- Every adjacent pair of the trace satisfies `headOkAfter`. -/
def pairsGuarded : List DriverEvent → Bool
  | [] => true
  | a :: rest => headOkAfter a rest && pairsGuarded rest

/-- A trace in which every blocking receive is immediately preceded by a
cancellation check and no receive comes first. -/
def cancelGuarded (l : List DriverEvent) : Bool :=
  headNotRecv l && pairsGuarded l

/-- The same guarantee stated positionally: any `recv` at position `i` has a
`cancelCheck` at position `i - 1`. -/
def recvGuardedProp (l : List DriverEvent) : Prop :=
  ∀ i msg, l.get? i = some (.recv msg) →
    ∃ j, i = j + 1 ∧ l.get? j = some .cancelCheck

theorem pairsGuarded_append (xs ys : List DriverEvent)
    (hx : pairsGuarded xs = true) (hy : pairsGuarded ys = true)
    (hhead : headNotRecv ys = true) :
    pairsGuarded (xs ++ ys) = true := by
  induction xs with
  | nil => simpa using hy
  | cons a tail ih =>
    simp only [pairsGuarded, Bool.and_eq_true] at hx
    have h2 := ih hx.2
    simp only [List.cons_append, pairsGuarded, Bool.and_eq_true]
    refine ⟨?_, h2⟩
    cases tail with
    | nil =>
      cases ys with
      | nil => rfl
      | cons b t =>
        simp only [headNotRecv] at hhead
        show headOkAfter a (b :: t) = true
        simp only [headOkAfter, hhead, Bool.true_or]
    | cons c t2 =>
      simpa only [List.cons_append, headOkAfter] using hx.1

theorem cancelGuarded_append (xs ys : List DriverEvent)
    (hx : cancelGuarded xs = true) (hy : cancelGuarded ys = true) :
    cancelGuarded (xs ++ ys) = true := by
  simp only [cancelGuarded, Bool.and_eq_true] at hx hy ⊢
  refine ⟨?_, pairsGuarded_append xs ys hx.2 hy.2 hy.1⟩
  cases xs with
  | nil => simpa using hy.1
  | cons a t => simpa only [List.cons_append, headNotRecv] using hx.1

theorem astQuery_map_guarded (ms : List String) :
    cancelGuarded (ms.map (fun m => DriverEvent.astQuery m .TransitiveStub)) = true := by
  induction ms with
  | nil => rfl
  | cons m tail ih =>
    rw [List.map_cons,
      show DriverEvent.astQuery m .TransitiveStub ::
          tail.map (fun m => DriverEvent.astQuery m .TransitiveStub) =
        [DriverEvent.astQuery m .TransitiveStub] ++
          tail.map (fun m => DriverEvent.astQuery m .TransitiveStub) from rfl]
    exact cancelGuarded_append _ _ rfl ih

theorem do_typecheck_guarded (db : AstDb) :
    ∀ script, cancelGuarded (do_typecheck db script).1 = true := by
  intro script
  induction script with
  | nil => rfl
  | cons msg rest ih =>
    cases msg with
    | GetAstBytes m f =>
      cases hdb : db m f with
      | ok bs =>
        by_cases hlen : bs.length < 2 ^ 32
        · simp only [do_typecheck, hdb, if_pos hlen]
          exact cancelGuarded_append _ _ rfl ih
        · simp only [do_typecheck, hdb, if_neg hlen]
          rfl
      | error err =>
        cases err with
        | ModuleNotFound s =>
          simp only [do_typecheck, hdb]
          exact cancelGuarded_append _ _ rfl ih
        | ParseError => simp only [do_typecheck, hdb]; rfl
        | Other e => simp only [do_typecheck, hdb]; rfl
    | EqwalizingStart m =>
      simp only [do_typecheck]
      exact cancelGuarded_append _ _ rfl ih
    | EqwalizingDone m =>
      simp only [do_typecheck]
      exact cancelGuarded_append _ _ rfl ih
    | EnteringModule m =>
      simp only [do_typecheck]
      exact cancelGuarded_append _ _ rfl ih
    | Dependencies ms =>
      simp only [do_typecheck]
      exact cancelGuarded_append _ _ rfl ih
    | Done d => simp only [do_typecheck]; rfl

theorem inner_loop_guarded (db : AstDb) :
    ∀ script, cancelGuarded (get_module_diagnostics_loop db script).1 = true := by
  intro script
  induction script with
  | nil => rfl
  | cons msg rest ih =>
    cases msg with
    | GetAstBytes m f =>
      cases hdb : db m f with
      | ok bs =>
        by_cases hlen : bs.length < 2 ^ 32
        · simp only [get_module_diagnostics_loop, hdb, if_pos hlen]
          exact cancelGuarded_append _ _ rfl ih
        · simp only [get_module_diagnostics_loop, hdb, if_neg hlen]
          rfl
      | error err =>
        cases err with
        | ModuleNotFound s =>
          simp only [get_module_diagnostics_loop, hdb]
          exact cancelGuarded_append _ _ rfl ih
        | ParseError => simp only [get_module_diagnostics_loop, hdb]; rfl
        | Other e => simp only [get_module_diagnostics_loop, hdb]; rfl
    | EqwalizingStart m =>
      simp only [get_module_diagnostics_loop]
      exact cancelGuarded_append _ _ rfl ih
    | EqwalizingDone m =>
      simp only [get_module_diagnostics_loop]
      exact cancelGuarded_append _ _ rfl ih
    | EnteringModule m =>
      simp only [get_module_diagnostics_loop]
      exact cancelGuarded_append _ _ rfl ih
    | Dependencies ms =>
      simp only [get_module_diagnostics_loop]
      exact cancelGuarded_append _ _
        (cancelGuarded_append _ _ rfl (astQuery_map_guarded ms)) ih
    | Done d => simp only [get_module_diagnostics_loop]; rfl

theorem shell_loop_guarded (md : String → EqwalizerDiagnostics) :
    ∀ script acc, cancelGuarded (shell_typecheck_loop md acc script).1 = true := by
  intro script
  induction script with
  | nil => intro acc; rfl
  | cons msg rest ih =>
    intro acc
    cases msg with
    | EnteringModule m =>
      simp only [shell_typecheck_loop]
      exact cancelGuarded_append _ _ rfl (ih _)
    | Done d => simp only [shell_typecheck_loop]; rfl
    | GetAstBytes m f =>
      simp only [shell_typecheck_loop]
      exact cancelGuarded_append _ _ rfl (ih _)
    | EqwalizingStart m =>
      simp only [shell_typecheck_loop]
      exact cancelGuarded_append _ _ rfl (ih _)
    | EqwalizingDone m =>
      simp only [shell_typecheck_loop]
      exact cancelGuarded_append _ _ rfl (ih _)
    | Dependencies ms =>
      simp only [shell_typecheck_loop]
      exact cancelGuarded_append _ _ rfl (ih _)

theorem pairsGuarded_get (l : List DriverEvent) (h : pairsGuarded l = true) :
    ∀ k msg, l.get? (k + 1) = some (.recv msg) → l.get? k = some .cancelCheck := by
  induction l with
  | nil => intro k msg hk; simp at hk
  | cons a rest ih =>
    simp only [pairsGuarded, Bool.and_eq_true] at h
    intro k msg hk
    cases k with
    | zero =>
      rw [List.get?_cons_succ] at hk
      cases rest with
      | nil => simp at hk
      | cons b t =>
        rw [List.get?_cons_zero] at hk
        injection hk with hb
        subst hb
        have h1 := h.1
        simp only [headOkAfter, isRecvEv, Bool.not_true, Bool.false_or] at h1
        rw [List.get?_cons_zero]
        cases a <;> simp [isCancelEv] at h1 ⊢
    | succ k =>
      rw [List.get?_cons_succ] at hk
      rw [List.get?_cons_succ]
      exact ih h.2 k msg hk

theorem cancelGuarded_recvGuarded (l : List DriverEvent)
    (h : cancelGuarded l = true) : recvGuardedProp l := by
  simp only [cancelGuarded, Bool.and_eq_true] at h
  intro i msg hi
  cases i with
  | zero =>
    exfalso
    cases l with
    | nil => simp at hi
    | cons a rest =>
      rw [List.get?_cons_zero] at hi
      injection hi with ha
      subst ha
      simp [headNotRecv, isRecvEv] at h
  | succ k =>
    exact ⟨k, rfl, pairsGuarded_get l h.2 k msg hi⟩

/-- Claim C7: every iteration of each protocol loop — the batch loop
(`do_typecheck`), the shell top-level loop (`shell_typecheck`), and the
shell per-module loop (`get_module_diagnostics`) — calls the cancellation
primitive `unwind_if_cancelled` before the blocking receive of that
iteration: in any trace they produce, a `recv` event never comes first and
is always immediately preceded by a `cancelCheck` event. -/
theorem cancellation_check_before_receive (db : AstDb)
    (md : String → EqwalizerDiagnostics) (hasHandle : Bool) (mq : String)
    (s1 s2 s3 : List MsgFromEqWAlizer) :
    (cancelGuarded (do_typecheck db s1).1 = true ∧
      recvGuardedProp (do_typecheck db s1).1) ∧
    (cancelGuarded (shell_typecheck md s2).1 = true ∧
      recvGuardedProp (shell_typecheck md s2).1) ∧
    (cancelGuarded (get_module_diagnostics db hasHandle mq s3).1 = true ∧
      recvGuardedProp (get_module_diagnostics db hasHandle mq s3).1) := by
  have h1 := do_typecheck_guarded db s1
  have h2 : cancelGuarded (shell_typecheck md s2).1 = true := by
    simp only [shell_typecheck]
    exact cancelGuarded_append [DriverEvent.untrackedRead] _ rfl
      (shell_loop_guarded md s2 .default)
  have h3 : cancelGuarded (get_module_diagnostics db hasHandle mq s3).1 = true := by
    cases hasHandle with
    | true =>
      simp only [get_module_diagnostics, if_pos]
      exact cancelGuarded_append [DriverEvent.sendMsg .ELPEnteringModule] _ rfl
        (inner_loop_guarded db s3)
    | false => rfl
  exact ⟨⟨h1, cancelGuarded_recvGuarded _ h1⟩,
    ⟨h2, cancelGuarded_recvGuarded _ h2⟩,
    ⟨h3, cancelGuarded_recvGuarded _ h3⟩⟩

/-- Witness for claim C7: in a concrete batch trace, the receive at
position 1 is preceded by the cancellation check at position 0. -/
theorem cancellation_check_before_receive_witness :
    ∃ j, 1 = j + 1 ∧
      (do_typecheck (fun _ _ => .error .ParseError) [.Done emptyDiagMap]).1.get? j =
        some .cancelCheck := by
  have h := (cancellation_check_before_receive (fun _ _ => .error .ParseError)
    (fun _ => .Error "e") true "m" [.Done emptyDiagMap] [] []).1.2
  exact h 1 (.Done emptyDiagMap) rfl

/-- Token kinds as the unused-macro check distinguishes them: whitespace or
anything else. -/
inductive SyntaxKind where
  | WHITESPACE
  | OtherKind (k : String)
deriving DecidableEq

/-- A syntax token with its kind and text. -/
structure NextToken where
  kind : SyntaxKind
  text : String
deriving DecidableEq

/-- The source view of one macro definition as the check reads it:
`macroTextRange` is `macro_syntax.text_range()`; `nameRange` is the range
of `source.name()` when present; `nextToken` models
`last_token()?.next_token()?`, `none` when either lookup fails. -/
structure DefineSource where
  macroTextRange : Nat × Nat
  nameRange : Option (Nat × Nat)
  nextToken : Option NextToken
deriving DecidableEq

/-- One macro definition of the def map: the file its definition lives in,
whether its symbol has at least one usage, and its source view. -/
structure Define where
  fileId : Nat
  hasUsages : Bool
  source : DefineSource
deriving DecidableEq

/-- Diagnostic severities (the check only ever constructs `Warning`). -/
inductive Severity where
  | Warning
  | ErrorSev
deriving DecidableEq

/-- Diagnostic codes as the check uses them. -/
inductive DiagnosticCode where
  | UnusedMacro
  | OtherCode (c : String)
deriving DecidableEq

/-- An `Assist` produced by `fix(...)`: id, label, the range deleted by its
single text edit, and the assist's target range. -/
structure Assist where
  id : String
  label : String
  deletedRange : Nat × Nat
  range : Nat × Nat
deriving DecidableEq

/-- The IDE `Diagnostic` fields the check constructs. -/
structure Diagnostic where
  severity : Severity
  code : DiagnosticCode
  range : Nat × Nat
  message : String
  fixes : Option (List Assist)
deriving DecidableEq

/-- `delete_unused_macro` of unused_macro.rs: the fix whose single text
edit deletes `range`. -/
def delete_unused_macro (file_id : Nat) (range : Nat × Nat) (name : String) :
    Assist :=
  { id := "delete_unused_macro",
    label := "Delete unused macro (" ++ name ++ ")",
    deletedRange := range,
    range := range }

/-- `make_diagnostic` of unused_macro.rs: a warning on the macro's name
range with exactly one fix deleting the macro's range. -/
def make_diagnostic (file_id : Nat) (macro_range name_range : Nat × Nat)
    (name : String) : Diagnostic :=
  { severity := .Warning,
    code := .UnusedMacro,
    range := name_range,
    message := "Unused macro (" ++ name ++ ")",
    fixes := some [ delete_unused_macro file_id macro_range name ] }

/-- The range the fix deletes, as computed in `unused_macro`: the macro's
text range, end extended by one when the token after the definition is
whitespace whose text starts with a newline. -/
def adjustedMacroRange (src : DefineSource) : Nat × Nat :=
  match src.nextToken with
  | some next_token =>
    if next_token.kind = SyntaxKind.WHITESPACE ∧ next_token.text.startsWith "\n"
    then (src.macroTextRange.1, src.macroTextRange.2 + 1)
    else src.macroTextRange
  | none => src.macroTextRange

/-- The `for (name, def) in def_map.get_macros()` loop of `unused_macro`,
with the accumulator of pushed diagnostics threaded; the `?` failures on
`last_token()?.next_token()?` and on `source.name()?` abort the whole
function (result `none`), keeping the diagnostics pushed so far. -/
def unused_macro_go (file_id : Nat) :
    List Diagnostic → List (String × Define) → List Diagnostic × Option Unit
  | acc, [] => (acc, some ())
  | acc, (name, d) :: rest =>
    if d.fileId = file_id then
      if d.hasUsages then unused_macro_go file_id acc rest
      else
        match d.source.nextToken with
        | none => (acc, none)
        | some next_token =>
          let macro_range :=
            if next_token.kind = SyntaxKind.WHITESPACE ∧
                next_token.text.startsWith "\n"
            then (d.source.macroTextRange.1, d.source.macroTextRange.2 + 1)
            else d.source.macroTextRange
          match d.source.nameRange with
          | none => (acc, none)
          | some name_range =>
            unused_macro_go file_id
              (acc ++ [ make_diagnostic file_id macro_range name_range name ]) rest
    else unused_macro_go file_id acc rest

/-- `unused_macro` of unused_macro.rs: the check runs only when the file
extension argument equals `Some("erl")`. -/
def unused_macro (acc : List Diagnostic) (file_id : Nat) (ext : Option String)
    (def_map : List (String × Define)) : List Diagnostic × Option Unit :=
  if some "erl" = ext then unused_macro_go file_id acc def_map
  else (acc, some ())

theorem unused_macro_go_mem (file_id : Nat) :
    ∀ (def_map : List (String × Define)) (acc : List Diagnostic)
      (d : Diagnostic), d ∈ ( unused_macro_go file_id acc def_map).1 →
      d ∈ acc ∨ ∃ name df, (name, df) ∈ def_map ∧ df.fileId = file_id ∧
        df.hasUsages = false ∧ df.source.nextToken.isSome = true ∧
        ∃ nr, df.source.nameRange = some nr ∧
          d = make_diagnostic file_id (adjustedMacroRange df.source) nr name := by
  intro def_map
  induction def_map with
  | nil =>
    intro acc d hd
    exact Or.inl hd
  | cons entry rest ih =>
    intro acc d hd
    obtain ⟨name, df⟩ := entry
    simp only [unused_macro_go] at hd
    by_cases hfile : df.fileId = file_id
    · rw [if_pos hfile] at hd
      by_cases husage : df.hasUsages = true
      · rw [if_pos husage] at hd
        rcases ih acc d hd with h | ⟨n2, df2, hmem, h1, h2, h3, nr, h4, h5⟩
        · exact Or.inl h
        · exact Or.inr ⟨n2, df2, List.mem_cons_of_mem _ hmem, h1, h2, h3, nr, h4, h5⟩
      · rw [if_neg husage] at hd
        cases hnt : df.source.nextToken with
        | none =>
          rw [hnt] at hd
          exact Or.inl hd
        | some nt =>
          rw [hnt] at hd
          cases hnr : df.source.nameRange with
          | none =>
            rw [hnr] at hd
            exact Or.inl hd
          | some nr =>
            rw [hnr] at hd
            rcases ih _ d hd with h | ⟨n2, df2, hmem, h1, h2, h3, nr2, h4, h5⟩
            · rcases List.mem_append.mp h with h2 | h2
              · exact Or.inl h2
              · have hda := List.mem_singleton.mp h2
                refine Or.inr ⟨name, df, List.mem_cons_self _ _, hfile,
                  Bool.not_eq_true df.hasUsages ▸ husage, by simp [hnt], nr, hnr, ?_⟩
                rw [hda]
                have : adjustedMacroRange df.source =
                    (if nt.kind = SyntaxKind.WHITESPACE ∧ nt.text.startsWith "\n"
                     then (df.source.macroTextRange.1, df.source.macroTextRange.2 + 1)
                     else df.source.macroTextRange) := by
                  simp [adjustedMacroRange, hnt]
                rw [this]
            · exact Or.inr ⟨n2, df2, List.mem_cons_of_mem _ hmem, h1, h2, h3, nr2, h4, h5⟩
    · rw [if_neg hfile] at hd
      rcases ih acc d hd with h | ⟨n2, df2, hmem, h1, h2, h3, nr, h4, h5⟩
      · exact Or.inl h
      · exact Or.inr ⟨n2, df2, List.mem_cons_of_mem _ hmem, h1, h2, h3, nr, h4, h5⟩

/-- Claim C10: `unused_macro` appends diagnostics only when the extension
argument is `Some("erl")`, and only for macros defined in the analyzed file
itself that have no usages; every appended diagnostic is the warning built
by `make_diagnostic` on the macro's name range, carrying exactly one fix
that deletes the macro definition's text range, extended by one character
exactly when the token following the definition is whitespace starting
with a newline. -/
theorem unused_macro_only_local_unused (acc : List Diagnostic) (file_id : Nat)
    (ext : Option String) (def_map : List (String × Define)) :
    (ext ≠ some "erl" → unused_macro acc file_id ext def_map = (acc, some ())) ∧
    (∀ d ∈ ( unused_macro acc file_id ext def_map).1, d ∈ acc ∨
      (ext = some "erl" ∧
        ∃ name df, (name, df) ∈ def_map ∧ df.fileId = file_id ∧
          df.hasUsages = false ∧ df.source.nextToken.isSome = true ∧
          ∃ nr, df.source.nameRange = some nr ∧
            d = make_diagnostic file_id (adjustedMacroRange df.source) nr name)) ∧
    (∀ fid mr nr nm, (make_diagnostic fid mr nr nm).severity = .Warning ∧
      (make_diagnostic fid mr nr nm).range = nr ∧
      (make_diagnostic fid mr nr nm).fixes =
        some [ delete_unused_macro fid mr nm ] ∧
      ( delete_unused_macro fid mr nm).deletedRange = mr) ∧
    (∀ src : DefineSource, ∀ t, src.nextToken = some t →
      adjustedMacroRange src =
        (if t.kind = SyntaxKind.WHITESPACE ∧ t.text.startsWith "\n"
         then (src.macroTextRange.1, src.macroTextRange.2 + 1)
         else src.macroTextRange)) := by
  refine ⟨?_, ?_, ?_, ?_⟩
  · intro hext
    simp only [ unused_macro]
    rw [if_neg (fun h => hext h.symm)]
  · intro d hd
    by_cases hext : some "erl" = ext
    · have hd2 : d ∈ ( unused_macro_go file_id acc def_map).1 := by
        simpa only [ unused_macro, if_pos hext] using hd
      rcases unused_macro_go_mem file_id def_map acc d hd2 with h | h
      · exact Or.inl h
      · exact Or.inr ⟨hext.symm, h⟩
    · simp only [ unused_macro, if_neg hext] at hd
      exact Or.inl hd
  · intro fid mr nr nm
    exact ⟨rfl, rfl, rfl, rfl⟩
  · intro src t ht
    simp [adjustedMacroRange, ht]

/-- Witness for claim C10: a non-erl extension leaves the accumulator
unchanged. -/
theorem unused_macro_only_local_unused_witness :
    (some "hrl" ≠ some "erl") ∧
    unused_macro [] 1 (some "hrl") [] = ([], some ()) :=
  ⟨by decide, (unused_macro_only_local_unused [] 1 (some "hrl") []).1 (by decide)⟩
